import Mathlib

/-!
Shallow embedding of the differential-testing harness of gpu-text-search
(src/Validation/accuracy_validation.py, src/Validation/comprehensive_test.py,
src/Validation/validate_binary.py), together with theorems settling the
frozen claims about the content synthesizer, the oracle adapters, the
reconciliation logic, the binary-dump decoder and the exit-status policy.

Byte strings are modelled as lists (generic element type for the
synthesizer, Nat bytes for the verifiers and the decoder); parsed counts
and offsets from subprocess output are modelled as Int, matching Python
int values; subprocess outcomes are modelled explicitly, with a raised
exception as a dedicated constructor.
-/

namespace GpuSearchValidation

instance {ε α : Type} [DecidableEq ε] [DecidableEq α] : DecidableEq (Except ε α) :=
  fun x y =>
    match x, y with
    | .error e1, .error e2 =>
      if h : e1 = e2 then isTrue (h ▸ rfl) else isFalse (fun hc => h (Except.error.inj hc))
    | .ok a1, .ok a2 =>
      if h : a1 = a2 then isTrue (h ▸ rfl) else isFalse (fun hc => h (Except.ok.inj hc))
    | .error _, .ok _ => isFalse (fun hc => Except.noConfusion hc)
    | .ok _, .error _ => isFalse (fun hc => Except.noConfusion hc)

/-! ## Content synthesizer (accuracy_validation.generate_test_content) -/

/-- Ascending sort on integer offsets, modelling the Python built-in
sorted on int lists. -/
def sortedAscI (l : List Int) : List Int := List.insertionSort (fun a b => a ≤ b) l

/-- Ascending sort on natural-number offsets, modelling the Python
built-in sorted on the decoded and verified position lists of
validate_binary.py. -/
def sortedAscNat (l : List Nat) : List Nat := List.insertionSort (fun a b => a ≤ b) l

/-- Python list assignment content[k] = a on a list of length n: an
index k with 0 ≤ k < n writes position k, a negative k with -n ≤ k
wraps to position n + k, and any other k raises IndexError, modelled as
Except.error. -/
def pySetElem {α : Type} (cs : List α) (k : Int) (a : α) : Except String (List α) :=
  if 0 ≤ k ∧ k < (cs.length : Int) then .ok (cs.set k.toNat a)
  else if -(cs.length : Int) ≤ k ∧ k < 0 then .ok (cs.set (k + (cs.length : Int)).toNat a)
  else .error "IndexError: list assignment index out of range"

/-- Sequential in-place pattern write of accuracy_validation.py lines
75-76: content[pos + i] = pattern[i] for each index i of the pattern,
with Python list-assignment index semantics, so a negative index wraps
from the end of the buffer. -/
def pyWriteAt {α : Type} : List α → Int → List α → Except String (List α)
  | cs, _, [] => .ok cs
  | cs, pos, a :: rest =>
    match pySetElem cs pos a with
    | .ok cs2 => pyWriteAt cs2 (pos + 1) rest
    | .error e => .error e

/-- Acceptance-and-injection loop of generate_test_content
(accuracy_validation.py lines 62-76) over Python int positions: iterate
over the sorted requested positions; a position is accepted when its
absolute distance to every previously accepted position is at least the
pattern length and pos + pattern-length does not exceed the content
length; accepted positions are appended and the pattern is written into
the content in place. -/
def placeLoopI {α : Type} (pattern : List α) :
    List Int → List Int → List α → Except String (List Int × List α)
  | [], valid, content => .ok (valid, content)
  | pos :: rest, valid, content =>
    if (valid.any fun v => decide ((pos - v).natAbs < pattern.length)) = false
        ∧ pos + (pattern.length : Int) ≤ (content.length : Int) then
      match pyWriteAt content pos pattern with
      | .ok content2 => placeLoopI pattern rest (valid ++ [pos]) content2
      | .error e => .error e
    else placeLoopI pattern rest valid content

/-- generate_test_content (accuracy_validation.py lines 57-78): requested
positions are arbitrary Python ints; the function returns the joined
content only, the accepted-position list being a local value that is
dropped; an out-of-range write raises, modelled as Except.error. -/
def generate_test_contentI {α : Type} (base pattern : List α) (positions : List Int) :
    Except String (List α) :=
  (placeLoopI pattern (sortedAscI positions) [] base).map (fun out => out.2)

/-- Accepted (valid) positions computed inside generate_test_content
(accuracy_validation.py, local variable valid_positions), observable
when the call completes. -/
def validPositionsI {α : Type} (base pattern : List α) (positions : List Int) :
    Except String (List Int) :=
  (placeLoopI pattern (sortedAscI positions) [] base).map (fun out => out.1)

theorem pySetElem_length {α : Type} {cs cs2 : List α} {k : Int} {a : α}
    (h : pySetElem cs k a = .ok cs2) : cs2.length = cs.length := by
  unfold pySetElem at h
  split at h
  · injection h with h2
    rw [← h2, List.length_set]
  · split at h
    · injection h with h2
      rw [← h2, List.length_set]
    · exact Except.noConfusion h

theorem pyWriteAt_length {α : Type} (p : List α) :
    ∀ (cs cs2 : List α) (pos : Int), pyWriteAt cs pos p = .ok cs2 → cs2.length = cs.length := by
  induction p with
  | nil =>
    intro cs cs2 pos h
    rw [pyWriteAt] at h
    injection h with h2
    rw [h2]
  | cons a rest ih =>
    intro cs cs2 pos h
    rw [pyWriteAt] at h
    cases hset : pySetElem cs pos a with
    | ok cs1 =>
      rw [hset] at h
      rw [ih cs1 cs2 (pos + 1) h, pySetElem_length hset]
    | error e =>
      rw [hset] at h
      exact Except.noConfusion h

theorem pyWriteAt_frame {α : Type} (p : List α) :
    ∀ (cs cs2 : List α) (pos : Int) (j : Nat), 0 ≤ pos →
      ((j : Int) < pos ∨ pos + (p.length : Int) ≤ (j : Int)) →
      pyWriteAt cs pos p = .ok cs2 → cs2[j]? = cs[j]? := by
  induction p with
  | nil =>
    intro cs cs2 pos j _ _ h
    rw [pyWriteAt] at h
    injection h with h2
    rw [h2]
  | cons a rest ih =>
    intro cs cs2 pos j h0 hj h
    simp only [List.length_cons] at hj
    rw [pyWriteAt] at h
    cases hset : pySetElem cs pos a with
    | ok cs1 =>
      rw [hset] at h
      have hrec := ih cs1 cs2 (pos + 1) j (by omega) (by omega) h
      unfold pySetElem at hset
      split at hset
      · injection hset with h2
        have hne : pos.toNat ≠ j := by omega
        rw [hrec, ← h2, List.getElem?_set_ne hne]
      · split at hset
        · rename_i hcond2
          exact absurd hcond2.2 (by omega)
        · exact Except.noConfusion hset
    | error e =>
      rw [hset] at h
      exact Except.noConfusion h

theorem placeLoopI_content_length {α : Type} (pattern : List α) :
    ∀ (l valid : List Int) (cs : List α) (out : List Int × List α),
      placeLoopI pattern l valid cs = .ok out → out.2.length = cs.length := by
  intro l
  induction l with
  | nil =>
    intro valid cs out h
    rw [placeLoopI] at h
    injection h with h2
    rw [← h2]
  | cons pos rest ih =>
    intro valid cs out h
    rw [placeLoopI] at h
    split at h
    · cases hw : pyWriteAt cs pos pattern with
      | ok cs2 =>
        rw [hw] at h
        rw [ih (valid ++ [pos]) cs2 out h, pyWriteAt_length pattern cs cs2 pos hw]
      | error e =>
        rw [hw] at h
        exact Except.noConfusion h
    · exact ih valid cs out h

theorem placeLoopI_acc_prefix {α : Type} (pattern : List α) :
    ∀ (l valid : List Int) (cs : List α) (out : List Int × List α),
      placeLoopI pattern l valid cs = .ok out → ∃ t, out.1 = valid ++ t := by
  intro l
  induction l with
  | nil =>
    intro valid cs out h
    rw [placeLoopI] at h
    injection h with h2
    exact ⟨[], by rw [← h2]; simp⟩
  | cons pos rest ih =>
    intro valid cs out h
    rw [placeLoopI] at h
    split at h
    · cases hw : pyWriteAt cs pos pattern with
      | ok cs2 =>
        rw [hw] at h
        obtain ⟨t, ht⟩ := ih (valid ++ [pos]) cs2 out h
        exact ⟨pos :: t, by rw [ht]; simp⟩
      | error e =>
        rw [hw] at h
        exact Except.noConfusion h
    · exact ih valid cs out h

theorem placeLoopI_acc_mem {α : Type} (pattern : List α) :
    ∀ (l valid : List Int) (cs : List α) (out : List Int × List α) (a : Int),
      placeLoopI pattern l valid cs = .ok out → a ∈ out.1 → a ∈ valid ∨ a ∈ l := by
  intro l
  induction l with
  | nil =>
    intro valid cs out a h ha
    rw [placeLoopI] at h
    injection h with h2
    rw [← h2] at ha
    exact Or.inl ha
  | cons pos rest ih =>
    intro valid cs out a h ha
    rw [placeLoopI] at h
    split at h
    · cases hw : pyWriteAt cs pos pattern with
      | ok cs2 =>
        rw [hw] at h
        rcases ih (valid ++ [pos]) cs2 out a h ha with hv | hr
        · rcases List.mem_append.mp hv with hv2 | hp
          · exact Or.inl hv2
          · exact Or.inr (by simp at hp; simp [hp])
        · exact Or.inr (List.mem_cons_of_mem _ hr)
      | error e =>
        rw [hw] at h
        exact Except.noConfusion h
    · rcases ih valid cs out a h ha with hv | hr
      · exact Or.inl hv
      · exact Or.inr (List.mem_cons_of_mem _ hr)

theorem placeLoopI_sep_bound {α : Type} (pattern : List α) :
    ∀ (l valid : List Int) (cs : List α) (out : List Int × List α),
      placeLoopI pattern l valid cs = .ok out →
      (∀ a ∈ valid, ∀ b ∈ valid, a ≠ b → pattern.length ≤ (a - b).natAbs) →
      (∀ a ∈ valid, a + (pattern.length : Int) ≤ (cs.length : Int)) →
      (∀ a ∈ out.1, ∀ b ∈ out.1, a ≠ b → pattern.length ≤ (a - b).natAbs) ∧
      ∀ a ∈ out.1, a + (pattern.length : Int) ≤ (cs.length : Int) := by
  intro l
  induction l with
  | nil =>
    intro valid cs out h hsep hbd
    rw [placeLoopI] at h
    injection h with h2
    rw [← h2]
    exact ⟨hsep, hbd⟩
  | cons pos rest ih =>
    intro valid cs out h hsep hbd
    rw [placeLoopI] at h
    split at h
    · rename_i hguard
      cases hw : pyWriteAt cs pos pattern with
      | ok cs2 =>
        rw [hw] at h
        have hfar : ∀ v ∈ valid, pattern.length ≤ (pos - v).natAbs := by
          intro v hv
          have h2 := List.any_eq_false.mp hguard.1 v hv
          simp at h2
          omega
        have hsep2 : ∀ a ∈ valid ++ [pos], ∀ b ∈ valid ++ [pos],
            a ≠ b → pattern.length ≤ (a - b).natAbs := by
          intro a ha b hb hne
          rcases List.mem_append.mp ha with ha2 | ha2 <;>
            rcases List.mem_append.mp hb with hb2 | hb2
          · exact hsep a ha2 b hb2 hne
          · have hb3 : b = pos := by simpa using hb2
            have hfa := hfar a ha2
            omega
          · have ha3 : a = pos := by simpa using ha2
            have hfb := hfar b hb2
            omega
          · have ha3 : a = pos := by simpa using ha2
            have hb3 : b = pos := by simpa using hb2
            exact absurd (ha3.trans hb3.symm) hne
        have hbd2 : ∀ a ∈ valid ++ [pos], a + (pattern.length : Int) ≤ (cs2.length : Int) := by
          rw [pyWriteAt_length pattern cs cs2 pos hw]
          intro a ha
          rcases List.mem_append.mp ha with ha2 | ha2
          · exact hbd a ha2
          · have ha3 : a = pos := by simpa using ha2
            rw [ha3]
            exact hguard.2
        have hmain := ih (valid ++ [pos]) cs2 out h hsep2 hbd2
        refine ⟨hmain.1, ?_⟩
        intro a ha
        have hres := hmain.2 a ha
        rwa [pyWriteAt_length pattern cs cs2 pos hw] at hres
      | error e =>
        rw [hw] at h
        exact Except.noConfusion h
    · exact ih valid cs out h hsep hbd

theorem placeLoopI_frame {α : Type} (pattern : List α) :
    ∀ (l valid : List Int) (cs : List α) (out : List Int × List α) (j : Nat),
      placeLoopI pattern l valid cs = .ok out →
      (∀ a ∈ out.1, 0 ≤ a) →
      (∀ a ∈ out.1, (j : Int) < a ∨ a + (pattern.length : Int) ≤ (j : Int)) →
      out.2[j]? = cs[j]? := by
  intro l
  induction l with
  | nil =>
    intro valid cs out j h _ _
    rw [placeLoopI] at h
    injection h with h2
    rw [← h2]
  | cons pos rest ih =>
    intro valid cs out j h hnn hj
    rw [placeLoopI] at h
    split at h
    · cases hw : pyWriteAt cs pos pattern with
      | ok cs2 =>
        rw [hw] at h
        have hpos_mem : pos ∈ out.1 := by
          obtain ⟨t, ht⟩ := placeLoopI_acc_prefix pattern rest (valid ++ [pos]) cs2 out h
          rw [ht]
          simp
        rw [ih (valid ++ [pos]) cs2 out j h hnn hj]
        exact pyWriteAt_frame pattern cs cs2 pos j (hnn pos hpos_mem) (hj pos hpos_mem) hw
      | error e =>
        rw [hw] at h
        exact Except.noConfusion h
    · exact ih valid cs out j h hnn hj

/-- Claim C2: for every call of the content synthesizer that completes
(any base content, pattern, and requested list of Python int positions),
the accepted positions are pairwise separated by at least pattern-length
bytes (each candidate having been checked against all previously
accepted positions), and every accepted position p satisfies
p + pattern.length ≤ contentSize. -/
theorem claim2_accepted_separated_and_in_bounds {α : Type}
    (base pattern : List α) (reqs valid : List Int)
    (h : validPositionsI base pattern reqs = .ok valid) :
    (∀ a ∈ valid, ∀ b ∈ valid, a ≠ b → pattern.length ≤ (a - b).natAbs) ∧
    ∀ a ∈ valid, a + (pattern.length : Int) ≤ (base.length : Int) := by
  unfold validPositionsI at h
  cases hp : placeLoopI pattern (sortedAscI reqs) [] base with
  | ok out =>
    rw [hp] at h
    simp only [Except.map] at h
    injection h with h2
    have hsb := placeLoopI_sep_bound pattern (sortedAscI reqs) [] base out hp
      (by intro a ha; simp at ha) (by intro a ha; simp at ha)
    rw [← h2]
    exact hsb
  | error e =>
    rw [hp] at h
    simp only [Except.map] at h
    exact Except.noConfusion h

/-- Witness for claim C2 at a concrete call: content of 10 bytes,
pattern of 2 bytes, requested positions 0, 1 and 5; positions 0 and 5
are accepted, lie 5 bytes apart and fit in the content. -/
theorem claim2_witness :
    ([1, 2] : List Nat).length ≤ ((0 : Int) - 5).natAbs ∧
    (5 : Int) + (([1, 2] : List Nat).length : Int) ≤ ((List.replicate 10 (0 : Nat)).length : Int) :=
  ⟨(claim2_accepted_separated_and_in_bounds (List.replicate 10 (0 : Nat)) [1, 2] [0, 1, 5]
      [0, 5] (by decide)).1 0 (by decide) 5 (by decide) (by decide),
   (claim2_accepted_separated_and_in_bounds (List.replicate 10 (0 : Nat)) [1, 2] [0, 1, 5]
      [0, 5] (by decide)).2 5 (by decide)⟩

/-- Claim C3 fails on the code at an input the harness itself generates:
for the 1000-byte pattern the end-of-file case requests position
999 - 1000 = -1, which the guard accepts, and the Python in-place write
wraps. This theorem evaluates the same slip at 3-byte scale: with base
[97, 97, 97], pattern [88, 89, 90] and requested position -1, the
position is accepted (-1 + 3 ≤ 3), the write wraps so that index 2
receives pattern byte 0 and indices 0 and 1 receive pattern bytes 1 and
2, and the returned content contains the pattern at no window at all, in
particular not at the accepted position. -/
theorem claim3_wrapped_write :
    validPositionsI ([97, 97, 97] : List Nat) [88, 89, 90] [-1] = .ok [-1] ∧
    generate_test_contentI ([97, 97, 97] : List Nat) [88, 89, 90] [-1] = .ok [89, 90, 88] ∧
    ∀ j ∈ List.range 4, (([89, 90, 88] : List Nat).drop j).take 3 ≠ [88, 89, 90] := by
  decide

/-- Claim C9 as stated is false on the code: at the wrapped call with
accepted position -1 and pattern length 3 over a 3-byte base, index 2
lies outside the accepted interval, which covers only the integers -1, 0
and 1, yet its byte changes from the base byte 97 to the first pattern
byte 88. -/
theorem claim9_counterexample :
    validPositionsI ([97, 97, 97] : List Nat) [88, 89, 90] [-1] = .ok [-1] ∧
    generate_test_contentI ([97, 97, 97] : List Nat) [88, 89, 90] [-1] = .ok [89, 90, 88] ∧
    (∀ p ∈ ([-1] : List Int), ¬(p ≤ 2 ∧ (2 : Int) < p + 3)) ∧
    ([89, 90, 88] : List Nat)[2]? ≠ ([97, 97, 97] : List Nat)[2]? := by
  decide

/-- Claim C9 amended: whenever the synthesizer call completes, the
returned content has the same length as the base content; and when every
accepted position is non-negative, every index not covered by an
accepted interval holds the base byte unchanged. A negative accepted
position instead wraps its write to the end of the buffer, which is what
the counterexample exhibits. -/
theorem claim9_amended {α : Type} (base pattern : List α) (reqs valid : List Int)
    (cont : List α)
    (hv : validPositionsI base pattern reqs = .ok valid)
    (hc : generate_test_contentI base pattern reqs = .ok cont) :
    cont.length = base.length ∧
    ((∀ a ∈ valid, 0 ≤ a) →
      ∀ j : Nat, (∀ a ∈ valid, (j : Int) < a ∨ a + (pattern.length : Int) ≤ (j : Int)) →
        cont[j]? = base[j]?) := by
  unfold validPositionsI at hv
  unfold generate_test_contentI at hc
  cases hp : placeLoopI pattern (sortedAscI reqs) [] base with
  | ok out =>
    rw [hp] at hv hc
    simp only [Except.map] at hv hc
    injection hv with hv2
    injection hc with hc2
    constructor
    · rw [← hc2]
      exact placeLoopI_content_length pattern (sortedAscI reqs) [] base out hp
    · intro hnn j hj
      rw [← hc2]
      refine placeLoopI_frame pattern (sortedAscI reqs) [] base out j hp ?_ ?_
      · rw [hv2]
        exact hnn
      · rw [hv2]
        exact hj
  | error e =>
    rw [hp] at hv
    simp only [Except.map] at hv
    exact Except.noConfusion hv

/-- Witness for claim C9 amended at a concrete call with non-negative
accepted positions 0 and 5: the length is preserved and index 2, covered
by no accepted interval, keeps the base byte. -/
theorem claim9_witness :
    ([1, 2, 0, 0, 0, 1, 2, 0, 0, 0] : List Nat).length = (List.replicate 10 (0 : Nat)).length ∧
    ([1, 2, 0, 0, 0, 1, 2, 0, 0, 0] : List Nat)[2]? = (List.replicate 10 (0 : Nat))[2]? :=
  ⟨(claim9_amended (List.replicate 10 (0 : Nat)) [1, 2] [0, 1, 5] [0, 5]
      [1, 2, 0, 0, 0, 1, 2, 0, 0, 0] (by decide) (by decide)).1,
   (claim9_amended (List.replicate 10 (0 : Nat)) [1, 2] [0, 1, 5] [0, 5]
      [1, 2, 0, 0, 0, 1, 2, 0, 0, 0] (by decide) (by decide)).2
      (by decide) 2 (by decide)⟩

/-- Claim C8 as stated is false: generate_test_content returns only the
content, and the accepted-position list is not recoverable from that
return value; two calls whose accepted-position lists differ produce the
identical return value, so no caller-visible pair (content,
acceptedPositions) exists. -/
theorem claim8_counterexample :
    generate_test_contentI ([88, 88] : List Nat) [88] [0] =
      generate_test_contentI ([88, 88] : List Nat) [88] [1] ∧
    validPositionsI ([88, 88] : List Nat) [88] [0] ≠
      validPositionsI ([88, 88] : List Nat) [88] [1] := by
  decide

/-- Claim C8 amended: the synthesizer returns only the content; the
accepted-position list is computed internally and dropped, so callers
cannot obtain it as ground truth. Every accepted position is one of the
requested positions, rejected ones being silently dropped, and two calls
with different accepted-position lists can return identical content, so
the accepted list is not recoverable from the return value. -/
theorem claim8_amended {α : Type} (base pattern : List α) (reqs valid : List Int)
    (hv : validPositionsI base pattern reqs = .ok valid) :
    (∀ a ∈ valid, a ∈ reqs) ∧
    ∃ b pat : List Nat, ∃ r1 r2 : List Int,
      generate_test_contentI b pat r1 = generate_test_contentI b pat r2 ∧
      validPositionsI b pat r1 ≠ validPositionsI b pat r2 := by
  constructor
  · intro a ha
    unfold validPositionsI at hv
    cases hp : placeLoopI pattern (sortedAscI reqs) [] base with
    | ok out =>
      rw [hp] at hv
      simp only [Except.map] at hv
      injection hv with hv2
      rw [← hv2] at ha
      rcases placeLoopI_acc_mem pattern (sortedAscI reqs) [] base out a hp ha with h0 | hmem
      · simp at h0
      · rw [sortedAscI, List.mem_insertionSort] at hmem
        exact hmem
    | error e =>
      rw [hp] at hv
      simp only [Except.map] at hv
      exact Except.noConfusion hv
  · exact ⟨[88, 88], [88], [0], [1], by decide, by decide⟩

/-- Witness for claim C8 amended at a concrete call: accepted position 0
is one of the requested positions. -/
theorem claim8_witness : (0 : Int) ∈ ([0, 1, 5] : List Int) :=
  (claim8_amended (List.replicate 10 (0 : Nat)) [1, 2] [0, 1, 5] [0, 5] (by decide)).1
    0 (by decide)

/-! ## Manual byte verifiers (comprehensive_test.validate_positions_manually,
validate_binary.validate_positions_in_file) -/

/-- Byte-slice comparison content[pos : pos + pattern.length] == pattern,
on raw bytes. -/
def sliceMatchesB (content pattern : List Nat) (pos : Nat) : Bool :=
  (content.drop pos).take pattern.length == pattern

/-- validate_positions_manually (comprehensive_test.py lines 58-77): first
component is the accepted positions, second the positions reported as
invalid by a printed diagnostic. An in-bounds position whose slice
differs from the pattern is reported; an out-of-bounds position is
neither accepted nor reported. -/
def validate_positions_manually (content pattern : List Nat) : List Nat → List Nat × List Nat
  | [] => ([], [])
  | pos :: rest =>
    let r := validate_positions_manually content pattern rest
    if pos + pattern.length ≤ content.length then
      if sliceMatchesB content pattern pos then (pos :: r.1, r.2) else (r.1, pos :: r.2)
    else r

/-- validate_positions_in_file (validate_binary.py lines 34-51): like
validate_positions_manually, but an out-of-bounds position is also
reported. -/
def validate_positions_in_file (content pattern : List Nat) : List Nat → List Nat × List Nat
  | [] => ([], [])
  | pos :: rest =>
    let r := validate_positions_in_file content pattern rest
    if pos + pattern.length ≤ content.length then
      if sliceMatchesB content pattern pos then (pos :: r.1, r.2) else (r.1, pos :: r.2)
    else (r.1, pos :: r.2)

/-- Claim C4 as stated is false: in validate_positions_manually a
candidate that fails the bounds check (position 5, pattern length 2,
content length 1) is silently dropped: it is neither accepted nor
reported. -/
theorem claim4_counterexample :
    validate_positions_manually [97] [98, 99] [5] = ([], []) ∧ ¬ (5 + 2 ≤ 1) := by
  decide

/-- Claim C4 amended: both verifiers accept a position iff the slice lies
in bounds and equals the pattern, and their output is exactly that subset
of the candidates, in order; validate_positions_in_file reports every
failing position individually, while validate_positions_manually reports
only in-bounds mismatches and silently drops out-of-bounds candidates. -/
theorem claim4_amended (content pattern : List Nat) (cands : List Nat) :
    (validate_positions_manually content pattern cands).1 =
      cands.filter (fun pos => decide (pos + pattern.length ≤ content.length)
        && sliceMatchesB content pattern pos) ∧
    (validate_positions_manually content pattern cands).2 =
      cands.filter (fun pos => decide (pos + pattern.length ≤ content.length)
        && !sliceMatchesB content pattern pos) ∧
    (validate_positions_in_file content pattern cands).1 =
      cands.filter (fun pos => decide (pos + pattern.length ≤ content.length)
        && sliceMatchesB content pattern pos) ∧
    (validate_positions_in_file content pattern cands).2 =
      cands.filter (fun pos => !(decide (pos + pattern.length ≤ content.length)
        && sliceMatchesB content pattern pos)) := by
  induction cands with
  | nil => exact ⟨rfl, rfl, rfl, rfl⟩
  | cons pos rest ih =>
    obtain ⟨ih1, ih2, ih3, ih4⟩ := ih
    by_cases hb : pos + pattern.length ≤ content.length <;>
      by_cases hs : sliceMatchesB content pattern pos = true <;>
        simp [validate_positions_manually, validate_positions_in_file,
          List.filter_cons, hb, hs, ih1, ih2, ih3, ih4]

/-! ## Binary dump decoder (validate_binary.read_binary_positions) -/

/-- read_binary_positions (validate_binary.py lines 7-17): reads the byte
stream 4 bytes at a time; an empty read terminates decoding; each full
4-byte record is unpacked as a little-endian unsigned 32-bit integer; a
short trailing read of 1 to 3 bytes raises struct.error, modelled as
Except.error. -/
def read_binary_positions : List Nat → Except String (List Nat)
  | [] => .ok []
  | b0 :: b1 :: b2 :: b3 :: rest =>
    match read_binary_positions rest with
    | .ok ps => .ok ((b0 + 256 * b1 + 65536 * b2 + 16777216 * b3) :: ps)
    | .error e => .error e
  | _ => .error "struct.error: unpack requires a buffer of 4 bytes"

/-- Little-endian unsigned 32-bit value stored at byte offset 4 * k. -/
def u32At (bytes : List Nat) (k : Nat) : Nat :=
  match bytes.drop (4 * k) with
  | b0 :: b1 :: b2 :: b3 :: _ => b0 + 256 * b1 + 65536 * b2 + 16777216 * b3
  | _ => 0

theorem u32At_cons4 (b0 b1 b2 b3 : Nat) (rest : List Nat) (k : Nat) :
    u32At (b0 :: b1 :: b2 :: b3 :: rest) (k + 1) = u32At rest k := by
  unfold u32At
  have h : 4 * (k + 1) = 4 * k + 4 := by ring
  rw [h]
  simp [List.drop_succ_cons]

theorem read_binary_positions_ok (N : Nat) : ∀ bytes : List Nat, bytes.length = 4 * N →
    ∃ ps, read_binary_positions bytes = .ok ps ∧ ps.length = N ∧
      ∀ k, k < N → ps[k]? = some (u32At bytes k) := by
  induction N with
  | zero =>
    intro bytes h
    have hnil : bytes = [] := List.length_eq_zero.mp (by omega)
    subst hnil
    exact ⟨[], rfl, rfl, by intro k hk; omega⟩
  | succ N ih =>
    intro bytes h
    match bytes with
    | [] => simp at h
    | [b0] => simp at h; omega
    | [b0, b1] => simp at h; omega
    | [b0, b1, b2] => simp at h; omega
    | b0 :: b1 :: b2 :: b3 :: rest =>
      have hrest : rest.length = 4 * N := by simp at h; omega
      obtain ⟨ps, hok, hlen, hidx⟩ := ih rest hrest
      refine ⟨(b0 + 256 * b1 + 65536 * b2 + 16777216 * b3) :: ps, ?_, by simp [hlen], ?_⟩
      · rw [read_binary_positions, hok]
      · intro k hk
        match k with
        | 0 => simp [u32At]
        | k + 1 =>
          rw [u32At_cons4]
          simpa using hidx k (by omega)

theorem read_binary_positions_error : ∀ (n : Nat) (bytes : List Nat), bytes.length ≤ n →
    bytes.length % 4 ≠ 0 → ∀ ps, read_binary_positions bytes ≠ .ok ps := by
  intro n
  induction n with
  | zero =>
    intro bytes hb h ps
    have hnil : bytes = [] := List.length_eq_zero.mp (by omega)
    subst hnil
    simp at h
  | succ n ih =>
    intro bytes hb h ps
    match bytes with
    | [] => simp at h
    | [b0] => simp [read_binary_positions]
    | [b0, b1] => simp [read_binary_positions]
    | [b0, b1, b2] => simp [read_binary_positions]
    | b0 :: b1 :: b2 :: b3 :: rest =>
      have h4 : rest.length % 4 ≠ 0 := by simp at h ⊢; omega
      have hb4 : rest.length ≤ n := by simp at hb; omega
      intro hok
      rw [read_binary_positions] at hok
      cases hrec : read_binary_positions rest with
      | ok ps2 => exact ih rest hb4 h4 ps2 hrec
      | error e => rw [hrec] at hok; simp at hok

/-- Claim C5: applied to a byte stream of length 4 * N, the decoder
returns exactly N positions, the k-th being the little-endian unsigned
32-bit integer at bytes 4k through 4k+3; applied to a stream whose length
is not a multiple of 4, it yields a decode error and never a position
list. -/
theorem claim5_decoder (bytes : List Nat) (N : Nat) :
    (bytes.length = 4 * N →
      ∃ ps, read_binary_positions bytes = .ok ps ∧ ps.length = N ∧
        ∀ k, k < N → ps[k]? = some (u32At bytes k)) ∧
    (bytes.length % 4 ≠ 0 → ∀ ps, read_binary_positions bytes ≠ .ok ps) :=
  ⟨fun h => read_binary_positions_ok N bytes h,
   fun h => read_binary_positions_error bytes.length bytes (Nat.le_refl _) h⟩

/-- Witness for claim C5: an 8-byte stream decodes to its two
little-endian records, and a 13-byte stream (3 records plus one residual
byte) is a decode error. -/
theorem claim5_witness :
    (∃ ps, read_binary_positions [1, 0, 0, 0, 2, 1, 0, 0] = .ok ps ∧ ps.length = 2 ∧
      ∀ k, k < 2 → ps[k]? = some (u32At [1, 0, 0, 0, 2, 1, 0, 0] k)) ∧
    ∀ ps, read_binary_positions (List.replicate 13 0) ≠ .ok ps :=
  ⟨(claim5_decoder [1, 0, 0, 0, 2, 1, 0, 0] 2).1 (by decide),
   (claim5_decoder (List.replicate 13 0) 0).2 (by decide)⟩

/-! ## Oracle adapters (accuracy_validation.run_gpu_search,
accuracy_validation.run_grep_search, validate_binary.get_grep_positions) -/

/-- Captured outcome of a completed subprocess invocation: exit status,
stdout split into lines, and stderr text. -/
structure SubprocResult where
  returncode : Int
  stdoutLines : List String
  stderr : String

/-- Outcome of attempting an external command: a completed invocation, or
a raised exception with its message. -/
inductive Invocation where
  | ok (r : SubprocResult)
  | raise (msg : String)

/-- Adapter result triple (count, positions, error), the shape returned
by run_gpu_search and run_grep_search. -/
structure MatchResult where
  count : Option Int
  positions : List Int
  error : Option String
deriving DecidableEq

/-- Stdout parsing loop of run_gpu_search (accuracy_validation.py lines
24-34): a line starting with the count marker updates the count, a
bracketed line replaces the position list; an unparseable integer raises,
modelled as Except.error. -/
def parseGpuLines : List String → Int × List Int → Except String (Int × List Int)
  | [], st => .ok st
  | line :: rest, st =>
    if line.startsWith "Matches found:" then
      match ((line.splitOn ":").getD 1 "").trim.toInt? with
      | some n => parseGpuLines rest (n, st.2)
      | none => .error "invalid literal for int"
    else if line.startsWith "[" && line.endsWith "]" then
      let posStr := ((line.trim).drop 1).dropRight 1
      if posStr ≠ "" then
        match (posStr.splitOn ",").mapM (fun x => x.trim.toInt?) with
        | some ps => parseGpuLines rest (st.1, ps)
        | none => .error "invalid literal for int"
      else parseGpuLines rest st
    else parseGpuLines rest st

/-- run_gpu_search (accuracy_validation.py lines 14-38): a raised
invocation or a non-zero exit status yields an error result with no
count; otherwise stdout is parsed into count and positions. -/
def run_gpu_search (inv : Invocation) : MatchResult :=
  match inv with
  | .raise e => ⟨none, [], some ("GPU error: " ++ e)⟩
  | .ok r =>
    if r.returncode ≠ 0 then ⟨none, [], some ("GPU search failed: " ++ r.stderr)⟩
    else
      match parseGpuLines r.stdoutLines (0, []) with
      | .ok st => ⟨some st.1, st.2, none⟩
      | .error e => ⟨none, [], some ("GPU error: " ++ e)⟩

/-- Stdout parsing loop of run_grep_search (accuracy_validation.py lines
47-51): each non-empty line containing a colon contributes the integer
before the first colon; an unparseable integer raises, modelled as
Except.error. -/
def parseGrepLines : List String → Except String (List Int)
  | [] => .ok []
  | line :: rest =>
    if line ≠ "" ∧ line.contains ':' then
      match ((line.splitOn ":").getD 0 "").toInt? with
      | some p => (parseGrepLines rest).map (fun ps => p :: ps)
      | none => .error "invalid literal for int"
    else parseGrepLines rest

/-- run_grep_search (accuracy_validation.py lines 40-55): parses stdout
only; the exit status of the subprocess is never consulted, and the
count is the length of the parsed position list. -/
def run_grep_search : Invocation → MatchResult
  | .raise e => ⟨none, [], some ("Grep error: " ++ e)⟩
  | .ok r =>
    match parseGrepLines r.stdoutLines with
    | .ok ps => ⟨some ps.length, sortedAscI ps, none⟩
    | .error e => ⟨none, [], some ("Grep error: " ++ e)⟩

/-- Stdout parsing loop of get_grep_positions (validate_binary.py lines
26-29): like parseGrepLines but without the colon requirement. -/
def ggParseLines : List String → Except String (List Int)
  | [] => .ok []
  | line :: rest =>
    if line ≠ "" then
      match ((line.splitOn ":").getD 0 "").toInt? with
      | some p => (ggParseLines rest).map (fun ps => p :: ps)
      | none => .error "invalid literal for int"
    else ggParseLines rest

/-- get_grep_positions (validate_binary.py lines 19-32): returns the
sorted parsed positions; any exception, including a raised invocation,
yields the empty list; the exit status is never consulted. -/
def get_grep_positions : Invocation → List Int
  | .raise _ => []
  | .ok r =>
    match ggParseLines r.stdoutLines with
    | .ok ps => sortedAscI ps
    | .error _ => []

/-! ## Reconciliation (accuracy_validation.test_pattern_size lines
127-151, validate_binary lines 84-101, accuracy_validation.main) -/

/-- Per-case verdict of test_pattern_size: the four branches of
accuracy_validation.py lines 127-151, checked in source order. -/
inductive AccVerdict where
  | oracleFailure
  | countMismatch
  | positionMismatch
  | pass
deriving DecidableEq

/-- Reconciliation of one test case (accuracy_validation.py lines
127-151): adapter errors are checked first (engine before reference),
then raw counts, then the sorted position lists. -/
def classify_case (g r : MatchResult) : AccVerdict :=
  if g.error.isSome then .oracleFailure
  else if r.error.isSome then .oracleFailure
  else if g.count ≠ r.count then .countMismatch
  else if sortedAscI g.positions ≠ sortedAscI r.positions then .positionMismatch
  else .pass

/-- Number of failing cases accumulated by test_pattern_size
(accuracy_validation.py lines 107-156): one per case whose verdict is not
the passing one. -/
def scenario_failures (cases : List (MatchResult × MatchResult)) : Nat :=
  (cases.filter fun pr => decide (classify_case pr.1 pr.2 ≠ AccVerdict.pass)).length

/-- Exit status of main (accuracy_validation.py lines 158-213): 1 when
the build fails, otherwise 0 exactly when no test case failed. -/
def main_exit (buildReturncode : Int) (tests : List (List (MatchResult × MatchResult))) : Int :=
  if buildReturncode ≠ 0 then 1
  else if (tests.map scenario_failures).sum = 0 then 0 else 1

/-- Python set comparison set(a) == set(b) on position lists. -/
def samePositionSet (a b : List Nat) : Bool :=
  (a.all fun x => b.contains x) && (b.all fun x => a.contains x)

/-- Sorted-list comparison of validate_binary.py line 85: the PERFECT
MATCH branch condition binary_sorted == grep_sorted == valid_sorted. -/
def vbPerfectMatch (binaryPos grepPos validPos : List Nat) : Bool :=
  (sortedAscNat binaryPos == sortedAscNat grepPos) &&
    (sortedAscNat grepPos == sortedAscNat validPos)

/-- Set comparison of validate_binary.py line 98: the CONTENT MATCH
notice condition set(binary) == set(grep) == set(valid). -/
def vbContentMatch (binaryPos grepPos validPos : List Nat) : Bool :=
  samePositionSet binaryPos grepPos && samePositionSet grepPos validPos

theorem sortedAscI_eq_of_perm {a b : List Int} (h : a.Perm b) : sortedAscI a = sortedAscI b :=
  List.eq_of_perm_of_sorted
    ((List.perm_insertionSort _ a).trans (h.trans (List.perm_insertionSort _ b).symm))
    (List.sorted_insertionSort _ a) (List.sorted_insertionSort _ b)

theorem samePositionSet_of_sorted_eq {a b : List Nat} (h : sortedAscNat a = sortedAscNat b) :
    samePositionSet a b = true := by
  have hperm : a.Perm b := by
    have h1 : a.Perm (sortedAscNat a) := (List.perm_insertionSort _ a).symm
    rw [h] at h1
    exact h1.trans (List.perm_insertionSort _ b)
  simp only [samePositionSet, Bool.and_eq_true, List.all_eq_true]
  constructor
  · intro x hx
    simp only [List.contains, List.elem_eq_mem, decide_eq_true_iff]
    exact hperm.mem_iff.mp hx
  · intro x hx
    simp only [List.contains, List.elem_eq_mem, decide_eq_true_iff]
    exact hperm.mem_iff.mpr hx

/-- Claim C1 as stated is false: the code does not grade set-equal
outcomes by as-returned order. With equal position sets, a result whose
order differs from ascending receives the same passing verdict as one
whose order agrees, and validate_binary issues its PERFECT MATCH verdict
on the order-differing input while its CONTENT MATCH notice also fires
when order agrees, so the two outcomes are not distinct. -/
theorem claim1_counterexample :
    classify_case ⟨some 2, [5, 0], none⟩ ⟨some 2, [0, 5], none⟩ = AccVerdict.pass ∧
    classify_case ⟨some 2, [0, 5], none⟩ ⟨some 2, [0, 5], none⟩ = AccVerdict.pass ∧
    vbPerfectMatch [5, 0] [0, 5] [0, 5] = true ∧
    vbContentMatch [0, 5] [0, 5] [0, 5] = true := by
  decide

/-- Claim C1 amended: reconciliation is two-way on sorted data: with no
errors, the per-case verdict is invariant under any permutation of the
as-returned engine positions (equal counts plus equal sorted lists is the
single accepted outcome, any difference is a mismatch), and whenever
validate_binary takes its PERFECT MATCH branch its CONTENT MATCH notice
holds as well, so ContentMatch is not a verdict distinct from
ExactMatch. -/
theorem claim1_amended (cg cr : Option Int) (g g2 r : List Int) (hp : g.Perm g2)
    (b gp v : List Nat) :
    classify_case ⟨cg, g, none⟩ ⟨cr, r, none⟩ = classify_case ⟨cg, g2, none⟩ ⟨cr, r, none⟩ ∧
    (vbPerfectMatch b gp v = true → vbContentMatch b gp v = true) := by
  constructor
  · unfold classify_case
    simp only [sortedAscI_eq_of_perm hp]
  · intro hperf
    simp only [vbPerfectMatch, Bool.and_eq_true, beq_iff_eq] at hperf
    simp only [vbContentMatch, Bool.and_eq_true]
    exact ⟨samePositionSet_of_sorted_eq hperf.1, samePositionSet_of_sorted_eq hperf.2⟩

/-- Witness for claim C1 amended: the order-differing engine result
receives the same verdict as its ascending permutation. -/
theorem claim1_witness :
    classify_case ⟨some 2, [5, 0], none⟩ ⟨some 2, [0, 5], none⟩ =
      classify_case ⟨some 2, [0, 5], none⟩ ⟨some 2, [0, 5], none⟩ ∧
    (vbPerfectMatch [5, 0] [0, 5] [0, 5] = true → vbContentMatch [5, 0] [0, 5] [0, 5] = true) :=
  claim1_amended (some 2) (some 2) [5, 0] [0, 5] [0, 5] (by decide) [5, 0] [0, 5] [0, 5]

/-- Claim C6: a non-zero engine exit status, or a raised invocation,
yields a MatchResult carrying an error and no count, and reconciliation
classifies the case as a failure regardless of the reference result, so
no count or position comparison takes part in the verdict. -/
theorem claim6_engine_error (r : SubprocResult) (e : String) (h : r.returncode ≠ 0) :
    (run_gpu_search (.ok r)).error.isSome = true ∧
    (run_gpu_search (.ok r)).count = none ∧
    (∀ grepRes : MatchResult, classify_case (run_gpu_search (.ok r)) grepRes =
      AccVerdict.oracleFailure) ∧
    (run_gpu_search (.raise e)).error.isSome = true ∧
    (run_gpu_search (.raise e)).count = none ∧
    ∀ grepRes : MatchResult, classify_case (run_gpu_search (.raise e)) grepRes =
      AccVerdict.oracleFailure := by
  unfold run_gpu_search classify_case
  simp [h]

/-- Witness for claim C6 at a concrete failing invocation with exit
status 1. -/
theorem claim6_witness :
    (run_gpu_search (.ok ⟨1, [], "boom"⟩)).count = none ∧
    classify_case (run_gpu_search (.ok ⟨1, [], "boom"⟩)) ⟨some 0, [], none⟩ =
      AccVerdict.oracleFailure :=
  ⟨(claim6_engine_error ⟨1, [], "boom"⟩ "x" (by decide)).2.1,
   (claim6_engine_error ⟨1, [], "boom"⟩ "x" (by decide)).2.2.1 ⟨some 0, [], none⟩⟩

theorem nat_sum_eq_zero_iff : ∀ l : List Nat, l.sum = 0 ↔ ∀ x ∈ l, x = 0 := by
  intro l
  induction l with
  | nil => simp
  | cons a t ih =>
    simp only [List.sum_cons, List.mem_cons, forall_eq_or_imp, ← ih]
    omega

theorem sum_failures_eq_zero_iff (tests : List (List (MatchResult × MatchResult))) :
    (tests.map scenario_failures).sum = 0 ↔
      ∀ t ∈ tests, ∀ pr ∈ t, classify_case pr.1 pr.2 = AccVerdict.pass := by
  rw [nat_sum_eq_zero_iff]
  constructor
  · intro h t ht pr hpr
    have h0 := h (scenario_failures t) (List.mem_map_of_mem _ ht)
    unfold scenario_failures at h0
    rw [List.length_eq_zero, List.filter_eq_nil_iff] at h0
    have h1 := h0 pr hpr
    simpa using h1
  · intro h x hx
    obtain ⟨t, ht, rfl⟩ := List.mem_map.mp hx
    unfold scenario_failures
    rw [List.length_eq_zero, List.filter_eq_nil_iff]
    intro pr hpr
    simp [h t ht pr hpr]

/-- Claim C7: the harness exits with status 0 iff the build succeeds and
every case of every scenario receives the passing verdict; otherwise the
exit status is 1. -/
theorem claim7_exit_status (buildReturncode : Int)
    (tests : List (List (MatchResult × MatchResult))) :
    (main_exit buildReturncode tests = 0 ↔
      buildReturncode = 0 ∧ ∀ t ∈ tests, ∀ pr ∈ t, classify_case pr.1 pr.2 = AccVerdict.pass) ∧
    (main_exit buildReturncode tests = 0 ∨ main_exit buildReturncode tests = 1) := by
  unfold main_exit
  rcases eq_or_ne buildReturncode 0 with hb | hb
  · subst hb
    rw [if_neg (by simp)]
    by_cases hs : (tests.map scenario_failures).sum = 0
    · rw [if_pos hs]
      refine ⟨?_, Or.inl rfl⟩
      exact ⟨fun _ => ⟨rfl, (sum_failures_eq_zero_iff tests).mp hs⟩, fun _ => rfl⟩
    · rw [if_neg hs]
      refine ⟨?_, Or.inr rfl⟩
      constructor
      · intro h01; omega
      · intro hall
        exact absurd ((sum_failures_eq_zero_iff tests).mpr hall.2) hs
  · rw [if_pos hb]
    refine ⟨?_, Or.inr rfl⟩
    constructor
    · intro h01; omega
    · intro hall
      exact absurd hall.1 hb

/-- Witness for claim C7: with a successful build and no scenarios the
exit status is 0. -/
theorem claim7_witness : main_exit 0 [] = 0 :=
  (claim7_exit_status 0 []).1.mpr ⟨rfl, by simp⟩

/-- Claim C10: the reference-scanner adapter never inspects the exit
status: its result is a function of stdout alone, and whenever stdout is
empty it returns count 0 with an empty position set and no error, for
any exit status; get_grep_positions behaves accordingly. -/
theorem claim10_grep_ignores_exit (r r2 : SubprocResult)
    (h : r.stdoutLines = r2.stdoutLines) :
    run_grep_search (.ok r) = run_grep_search (.ok r2) ∧
    (r.stdoutLines = [""] → run_grep_search (.ok r) = ⟨some 0, [], none⟩) ∧
    get_grep_positions (.ok r) = get_grep_positions (.ok r2) ∧
    (r.stdoutLines = [""] → get_grep_positions (.ok r) = []) := by
  refine ⟨?_, ?_, ?_, ?_⟩
  · simp only [run_grep_search, h]
  · intro he
    simp only [run_grep_search, he]
    rfl
  · simp only [get_grep_positions, h]
  · intro he
    simp only [get_grep_positions, he]
    rfl

/-- Witness for claim C10: a failed invocation (missing input file, exit
status 2, empty stdout) is indistinguishable from a successful zero-match
run, and reports zero matches with no error. -/
theorem claim10_witness :
    run_grep_search (.ok ⟨2, [""], "grep: missing.txt: No such file or directory"⟩) =
      run_grep_search (.ok ⟨0, [""], ""⟩) ∧
    run_grep_search (.ok ⟨2, [""], "grep: missing.txt: No such file or directory"⟩) =
      ⟨some 0, [], none⟩ :=
  ⟨(claim10_grep_ignores_exit ⟨2, [""], "grep: missing.txt: No such file or directory"⟩
      ⟨0, [""], ""⟩ rfl).1,
   (claim10_grep_ignores_exit ⟨2, [""], "grep: missing.txt: No such file or directory"⟩
      ⟨0, [""], ""⟩ rfl).2.1 rfl⟩

end GpuSearchValidation
